import Mathlib

/-!
Verification of the job-lifecycle orchestrator of `airflow-provider-tecton`
(`airflow_tecton/operators/tecton_job_operator.py`).

The operator's `execute` method is embedded as a pure function over a
response oracle standing for the `TectonHook` collaborator.  Every remote
call, log line and sleep the Python code performs is recorded in an event
trace, and the Python `return` / `raise` outcomes become an `ExecResult`.
The two unbounded `while` loops are given explicit fuel; `none` means the
fuel ran out, never a behaviour of the source.

Python strings are modelled as Lean `String`s; `str.lower`, `str.upper`
and `str.endswith` are modelled character-wise (ASCII case mapping, which
is what the job-state labels use).
-/

namespace AirflowTecton

/-- Python `str.lower` (ASCII case mapping), as a map over the characters. -/
def pyLower (s : String) : String := ⟨s.data.map Char.toLower⟩

/-- Python `str.upper` (ASCII case mapping), as a map over the characters. -/
def pyUpper (s : String) : String := ⟨s.data.map Char.toUpper⟩

/-- Python `str.endswith`: a suffix test on the character sequences. -/
def pyEndsWith (s suf : String) : Bool := decide (suf.data <:+ s.data)

/-- Modelled from the spec: the case-insensitive, suffix-based job-state
test of the external-interface section — compare a suffix after
lowercasing both strings.  Used only as the specification side of the
string-classification claims; the source's own tests are
`pyEndsWith (pyLower s)` and `pyEndsWith (pyUpper s)`. -/
def ciEndsWith (s suf : String) : Bool :=
  decide ((pyLower suf).data <:+ (pyLower s).data)

/-- One entry of a job record's `attempts` list: the fields `state` and
`run_url` read by the operator's progress logging. -/
structure Attempt where
  state : String
  run_url : String
deriving DecidableEq

/-- A Tecton materialization-job record as the operator reads it: fields
`id`, `state`, and the `attempts` list, which the payload may omit
(the source guards it with `if "attempts" in job_result`). -/
structure JobRec where
  id : String
  state : String
  attempts : Option (List Attempt)
deriving DecidableEq

/-- Result of `get_dataframe_info`: the fields `df_path` and
`signed_url_for_df_upload` read by `ingest_feature_table_with_pandas_df`. -/
structure DfInfo where
  df_path : String
  signed_url_for_df_upload : String
deriving DecidableEq

/-- The `TectonHook` collaborator, modelled as a response oracle.  `α` is
the type of the pandas dataframes produced by `df_generator`.

`find_materialization_job` receives exactly the keyword arguments the
source passes (workspace, feature_view, online, offline, start_time,
end_time, job_type) and may return a job record.

`get_materialization_job` receives the arguments the source passes
(workspace, feature_view, job_id) plus the number of `get` calls already
made during the invocation, so that a stub can script time-varying
responses; the source immediately indexes the response with `["job"]`, so
the oracle returns the inner record directly.

`submit_materialization_job` and `ingest_dataframe` return a response
that the source only uses as `resp["job"]["id"]`, so the oracle returns
that id directly. -/
structure HookOracle (α : Type) where
  find_materialization_job :
    String → String → Bool → Bool → String → String → String → Option JobRec
  get_materialization_job : String → String → String → Nat → JobRec
  submit_materialization_job :
    String → String → Bool → Bool → String → String → Bool → Bool → String
  get_dataframe_info : String → String → DfInfo
  ingest_dataframe : String → String → String → String

/-- The constructor arguments of `TectonJobOperator` that `execute` reads.
Start and end times may be templated strings; they are opaque here.
`df_generator` is the optional dataframe producer callback. -/
structure TectonJobOperator (α : Type) where
  workspace : String
  feature_view : String
  online : Bool
  offline : Bool
  start_time : String
  end_time : String
  allow_overwrite : Bool
  df_generator : Option (Unit → α)

/-- One observable step of an `execute` invocation: a remote call on the
hook, a log line, or a `time.sleep`. -/
inductive Event (α : Type) where
  | find_job (workspace feature_view : String) (online offline : Bool)
      (start_time end_time job_type : String)
  | log_existing (job : JobRec)
  | log_cancelling
  | cancel_job (workspace feature_view job_id : String)
  | get_job (workspace feature_view job_id : String)
  | log_waiting
  | sleep (seconds : Nat)
  | log_overwrite
  | log_exiting
  | get_dataframe_info (feature_view workspace : String)
  | invoke_df_generator (df : α)
  | upload_df (url : String) (df : α)
  | ingest_dataframe (feature_view df_path workspace : String)
  | submit_job (workspace feature_view : String) (online offline : Bool)
      (start_time end_time : String) (allow_overwrite tecton_managed_retries : Bool)
  | log_attempt (num : Nat) (state run_url : String)
  | log_no_attempt
deriving DecidableEq

/-- Outcome of an `execute` invocation.  `skipped` is the early `return`
in the existing-successful-job branch, `completed` the final `return`,
`jobFailed` the `raise Exception(...)` built from the final state and the
last-fetched record, and `indexError` the uncaught Python `IndexError`
raised by `attempts[-1]` when the `attempts` list is present but empty. -/
inductive ExecResult where
  | skipped
  | completed
  | jobFailed (state : String) (record : JobRec)
  | indexError
deriving DecidableEq

/-- How the poll-to-terminal loop ended. -/
inductive PollResult where
  | done (final : JobRec)
  | indexError
deriving DecidableEq

variable {α : Type}

/-- The `job_type` argument passed to `find_materialization_job`:
`"ingest" if self.df_generator else "batch"`. -/
def jobType (op : TectonJobOperator α) : String :=
  if op.df_generator.isSome then "ingest" else "batch"

/-- The wait-for-cancellation loop: while the fetched state does not
satisfy `.lower().endswith("manually_cancelled")`, log and sleep 60.
Arguments: per-invocation get-call counter, then fuel.  Returns the
events of the loop and the updated counter. -/
def waitCancelled (op : TectonJobOperator α) (h : HookOracle α) (jid : String) :
    Nat → Nat → Option (List (Event α) × Nat)
  | _, 0 => none
  | n, fuel + 1 =>
    let jr := h.get_materialization_job op.workspace op.feature_view jid n
    if pyEndsWith (pyLower jr.state) "manually_cancelled" then
      some ([Event.get_job op.workspace op.feature_view jid], n + 1)
    else
      match waitCancelled op h jid (n + 1) fuel with
      | none => none
      | some (tr, n') =>
        some (Event.get_job op.workspace op.feature_view jid ::
          Event.log_waiting :: Event.sleep 60 :: tr, n')

/-- The progress-logging step of one poll tick.  When the `attempts` key
is present the source evaluates `attempts[-1]`, which raises `IndexError`
on an empty list (modelled as `Except.error`); when the key is absent it
logs that no attempt has launched yet. -/
def logTick (α : Type) (jr : JobRec) : Except Unit (Event α) :=
  match jr.attempts with
  | some atts =>
    match atts.getLast? with
    | some a => Except.ok (Event.log_attempt atts.length a.state a.run_url)
    | none => Except.error ()
  | none => Except.ok Event.log_no_attempt

/-- The poll-to-terminal loop: while the current record's state satisfies
`.upper().endswith("RUNNING")`, log the latest attempt, sleep 60 and
refetch.  Arguments: current record, get-call counter, fuel. -/
def pollLoop (op : TectonJobOperator α) (h : HookOracle α) (jid : String) :
    JobRec → Nat → Nat → Option (List (Event α) × Nat × PollResult)
  | jr, n, 0 =>
    if pyEndsWith (pyUpper jr.state) "RUNNING" then none
    else some ([], n, PollResult.done jr)
  | jr, n, fuel + 1 =>
    if pyEndsWith (pyUpper jr.state) "RUNNING" then
      match logTick α jr with
      | Except.error _ => some ([], n, PollResult.indexError)
      | Except.ok ev =>
        let jr' := h.get_materialization_job op.workspace op.feature_view jid n
        match pollLoop op h jid jr' (n + 1) fuel with
        | none => none
        | some (tr, n', r) =>
          some (ev :: Event.sleep 60 ::
            Event.get_job op.workspace op.feature_view jid :: tr, n', r)
    else some ([], n, PollResult.done jr)

/-- The common tail of `execute` after a job id has been obtained: the
first fetch, the poll loop, and the final success test
`.upper().endswith("SUCCESS")` that decides between returning and
raising. -/
def afterSubmit (op : TectonJobOperator α) (h : HookOracle α) (fuel n : Nat)
    (subEvents : List (Event α)) (jid : String) :
    Option (List (Event α) × ExecResult) :=
  let jr := h.get_materialization_job op.workspace op.feature_view jid n
  match pollLoop op h jid jr (n + 1) fuel with
  | none => none
  | some (ptr, _, PollResult.indexError) =>
    some (subEvents ++ Event.get_job op.workspace op.feature_view jid :: ptr,
      ExecResult.indexError)
  | some (ptr, _, PollResult.done final) =>
    if pyEndsWith (pyUpper final.state) "SUCCESS" then
      some (subEvents ++ Event.get_job op.workspace op.feature_view jid :: ptr,
        ExecResult.completed)
    else
      some (subEvents ++ Event.get_job op.workspace op.feature_view jid :: ptr,
        ExecResult.jobFailed final.state final)

/-- The event sequence of `ingest_feature_table_with_pandas_df`: request
staging coordinates with `get_dataframe_info`, invoke the producer,
upload the produced dataframe via `upload_df_pandas` to the signed url,
then call `ingest_dataframe` with the staged `df_path`. -/
def ingestBlock (op : TectonJobOperator α) (h : HookOracle α) (g : Unit → α) :
    List (Event α) :=
  [Event.get_dataframe_info op.feature_view op.workspace,
   Event.invoke_df_generator (g ()),
   Event.upload_df (h.get_dataframe_info op.feature_view op.workspace).signed_url_for_df_upload (g ()),
   Event.ingest_dataframe op.feature_view
     (h.get_dataframe_info op.feature_view op.workspace).df_path op.workspace]

/-- The direct `submit_materialization_job` call, with all constructor
fields, `allow_overwrite=self.allow_overwrite` and
`tecton_managed_retries=False`. -/
def submitEvent (op : TectonJobOperator α) : Event α :=
  Event.submit_job op.workspace op.feature_view op.online op.offline
    op.start_time op.end_time op.allow_overwrite false

/-- The job id recorded into `self.job_id` right after submission:
`resp["job"]["id"]` of whichever submission route ran. -/
def newJobId (op : TectonJobOperator α) (h : HookOracle α) : String :=
  match op.df_generator with
  | some _ =>
    h.ingest_dataframe op.feature_view
      (h.get_dataframe_info op.feature_view op.workspace).df_path op.workspace
  | none =>
    h.submit_materialization_job op.workspace op.feature_view op.online
      op.offline op.start_time op.end_time op.allow_overwrite false

/-- The submission step of `execute`: the ingest path
(`ingest_feature_table_with_pandas_df`) when a `df_generator` is present,
otherwise the direct `submit_materialization_job` call with
`tecton_managed_retries=False`; then the poll phase. -/
def submitPoll (op : TectonJobOperator α) (h : HookOracle α) (fuel n : Nat) :
    Option (List (Event α) × ExecResult) :=
  match op.df_generator with
  | some g => afterSubmit op h fuel n (ingestBlock op h g) (newJobId op h)
  | none => afterSubmit op h fuel n [submitEvent op] (newJobId op h)

/-- The whole `TectonJobOperator.execute` body: find an existing job for
the query, branch on its state (`*running*` → cancel and wait;
`*success*` → skip unless `allow_overwrite`), then submit or ingest and
poll to a terminal state. -/
def execute (op : TectonJobOperator α) (h : HookOracle α) (fuel : Nat) :
    Option (List (Event α) × ExecResult) :=
  let findEv := Event.find_job op.workspace op.feature_view op.online
    op.offline op.start_time op.end_time (jobType op)
  match h.find_materialization_job op.workspace op.feature_view op.online
      op.offline op.start_time op.end_time (jobType op) with
  | some job =>
    if pyEndsWith (pyLower job.state) "running" then
      match waitCancelled op h job.id 0 fuel with
      | none => none
      | some (wtr, n) =>
        (submitPoll op h fuel n).map (fun p =>
          (findEv :: Event.log_existing job :: Event.log_cancelling ::
            Event.cancel_job op.workspace op.feature_view job.id ::
            (wtr ++ p.1), p.2))
    else if pyEndsWith (pyLower job.state) "success" then
      if op.allow_overwrite then
        (submitPoll op h fuel 0).map (fun p =>
          (findEv :: Event.log_existing job :: Event.log_overwrite :: p.1, p.2))
      else
        some ([findEv, Event.log_existing job, Event.log_exiting],
          ExecResult.skipped)
    else
      (submitPoll op h fuel 0).map (fun p =>
        (findEv :: Event.log_existing job :: p.1, p.2))
  | none =>
    (submitPoll op h fuel 0).map (fun p => (findEv :: p.1, p.2))

/-- Observable steps of `on_kill`. -/
inductive KillEvent where
  | log_attempting (job_id : String)
  | cancel_job (job_id : String)
  | log_killed (job_id : String)
  | log_no_job
deriving DecidableEq

/-- The `on_kill` hook.  `job_id` is the operator's remembered job id
(`None` until submission); `cancelResult` is the behaviour of the
client's `cancel_materialization_job` call, which the source invokes with
no surrounding `try`/`except`, so an error propagates.  Python truthiness
of `if self.job_id` makes the empty string fall through to the no-job
branch. -/
def on_kill (job_id : Option String) (cancelResult : Except String Unit) :
    List KillEvent × Except String Unit :=
  match job_id with
  | some jid =>
    if jid = "" then ([KillEvent.log_no_job], Except.ok ())
    else
      match cancelResult with
      | Except.ok _ =>
        ([KillEvent.log_attempting jid, KillEvent.cancel_job jid,
          KillEvent.log_killed jid], Except.ok ())
      | Except.error e =>
        ([KillEvent.log_attempting jid, KillEvent.cancel_job jid],
          Except.error e)
  | none => ([KillEvent.log_no_job], Except.ok ())

/-- Is the event a `cancel_materialization_job` call? -/
def isCancelCall : Event α → Bool
  | Event.cancel_job _ _ _ => true
  | _ => false

/-- Is the event a `get_materialization_job` call? -/
def isGetCall : Event α → Bool
  | Event.get_job _ _ _ => true
  | _ => false

/-- Is the event a `submit_materialization_job` call? -/
def isSubmitCall : Event α → Bool
  | Event.submit_job _ _ _ _ _ _ _ _ => true
  | _ => false

/-- Is the event an `ingest_dataframe` call? -/
def isIngestCall : Event α → Bool
  | Event.ingest_dataframe _ _ _ => true
  | _ => false

/-- Is the event a `time.sleep`? -/
def isSleepCall : Event α → Bool
  | Event.sleep _ => true
  | _ => false

/-- Is the event a job submission, by either route? -/
def isSubmissionCall (e : Event α) : Bool := isSubmitCall e || isIngestCall e

/-- Is the event a `get_dataframe_info` (staging-coordinates) call? -/
def isStagingCall : Event α → Bool
  | Event.get_dataframe_info _ _ => true
  | _ => false

/-- Is the event an upload through the data-staging transport? -/
def isUploadCall : Event α → Bool
  | Event.upload_df _ _ => true
  | _ => false

/-! ## Facts about the ASCII case maps and the suffix tests -/

theorem toNat_ofNat_of_valid {n : Nat} (h : n.isValidChar) :
    (Char.ofNat n).toNat = n := by
  rw [Char.ofNat, dif_pos h]
  rfl

theorem toUpper_eq (c : Char) :
    c.toUpper = if c.toNat ≥ 97 ∧ c.toNat ≤ 122 then Char.ofNat (c.toNat - 32) else c := rfl

theorem toLower_eq (c : Char) :
    c.toLower = if c.toNat ≥ 65 ∧ c.toNat ≤ 90 then Char.ofNat (c.toNat + 32) else c := rfl

theorem toLower_toUpper (c : Char) : c.toUpper.toLower = c.toLower := by
  by_cases h : c.toNat ≥ 97 ∧ c.toNat ≤ 122
  · have ht : (Char.ofNat (c.toNat - 32)).toNat = c.toNat - 32 :=
      toNat_ofNat_of_valid (Or.inl (by omega))
    rw [toUpper_eq, if_pos h, toLower_eq, toLower_eq, ht,
      if_pos (by omega : c.toNat - 32 ≥ 65 ∧ c.toNat - 32 ≤ 90),
      if_neg (by omega : ¬(c.toNat ≥ 65 ∧ c.toNat ≤ 90))]
    have harith : c.toNat - 32 + 32 = c.toNat := by omega
    rw [harith, Char.ofNat_toNat]
  · rw [toUpper_eq, if_neg h]

theorem toUpper_toLower (c : Char) : c.toLower.toUpper = c.toUpper := by
  by_cases h : c.toNat ≥ 65 ∧ c.toNat ≤ 90
  · have ht : (Char.ofNat (c.toNat + 32)).toNat = c.toNat + 32 :=
      toNat_ofNat_of_valid (Or.inl (by omega))
    rw [toLower_eq, if_pos h, toUpper_eq, toUpper_eq, ht,
      if_pos (by omega : c.toNat + 32 ≥ 97 ∧ c.toNat + 32 ≤ 122),
      if_neg (by omega : ¬(c.toNat ≥ 97 ∧ c.toNat ≤ 122))]
    have harith : c.toNat + 32 - 32 = c.toNat := by omega
    rw [harith, Char.ofNat_toNat]
  · rw [toLower_eq, if_neg h]

theorem map_case_suffix (a b : List Char) :
    a.map Char.toUpper <:+ b.map Char.toUpper ↔ a.map Char.toLower <:+ b.map Char.toLower := by
  constructor
  · intro h
    have h2 := List.IsSuffix.map Char.toLower h
    simp only [List.map_map] at h2
    have e1 : List.map (Char.toLower ∘ Char.toUpper) a = List.map Char.toLower a :=
      List.map_congr_left (fun c _ => toLower_toUpper c)
    have e2 : List.map (Char.toLower ∘ Char.toUpper) b = List.map Char.toLower b :=
      List.map_congr_left (fun c _ => toLower_toUpper c)
    rw [e1, e2] at h2
    exact h2
  · intro h
    have h2 := List.IsSuffix.map Char.toUpper h
    simp only [List.map_map] at h2
    have e1 : List.map (Char.toUpper ∘ Char.toLower) a = List.map Char.toUpper a :=
      List.map_congr_left (fun c _ => toUpper_toLower c)
    have e2 : List.map (Char.toUpper ∘ Char.toLower) b = List.map Char.toUpper b :=
      List.map_congr_left (fun c _ => toUpper_toLower c)
    rw [e1, e2] at h2
    exact h2

theorem pyEndsWith_upper_lower (s t : String) :
    pyEndsWith (pyUpper s) (pyUpper t) = pyEndsWith (pyLower s) (pyLower t) := by
  show decide ((pyUpper t).data <:+ (pyUpper s).data) = decide ((pyLower t).data <:+ (pyLower s).data)
  exact decide_eq_decide.mpr (map_case_suffix t.data s.data)

theorem ciEndsWith_eq_lower (s suf : String) :
    ciEndsWith s suf = pyEndsWith (pyLower s) (pyLower suf) := rfl

theorem ciEndsWith_eq_upper (s suf : String) :
    ciEndsWith s suf = pyEndsWith (pyUpper s) (pyUpper suf) := by
  rw [ciEndsWith_eq_lower, pyEndsWith_upper_lower]

theorem suffix_eq_of_length {a b x : List Char} (ha : a <:+ x) (hb : b <:+ x)
    (hlen : a.length = b.length) : a = b := by
  obtain ⟨u, hu⟩ := ha
  obtain ⟨v, hv⟩ := hb
  rw [← hv] at hu
  have hl : u.length = v.length := by
    have := congrArg List.length hu
    simp only [List.length_append] at this
    omega
  exact List.append_inj_right hu hl

theorem running_not_success {s : String} (h : pyEndsWith s "running" = true) :
    pyEndsWith s "success" = false := by
  by_contra hc
  have h2 : pyEndsWith s "success" = true := by
    cases he : pyEndsWith s "success" with
    | true => rfl
    | false => exact absurd he hc
  have ha : ("running").data <:+ s.data := of_decide_eq_true h
  have hb : ("success").data <:+ s.data := of_decide_eq_true h2
  have : ("running").data = ("success").data :=
    suffix_eq_of_length ha hb (by decide)
  exact absurd this (by decide)

/-! ## Characterization of the two loops -/

/-- Does a record survive the progress-logging step (`attempts` key
absent, or present and non-empty)? -/
def loggable (jr : JobRec) : Bool :=
  match jr.attempts with
  | some atts => !atts.isEmpty
  | none => true

/-- The log event a loggable record produces at a poll tick. -/
def logEvent (α : Type) (jr : JobRec) : Event α :=
  match jr.attempts with
  | some atts =>
    match atts.getLast? with
    | some a => Event.log_attempt atts.length a.state a.run_url
    | none => Event.log_no_attempt
  | none => Event.log_no_attempt

theorem logTick_eq_ok {jr : JobRec} (hl : loggable jr = true) :
    logTick α jr = Except.ok (logEvent α jr) := by
  cases hatt : jr.attempts with
  | none => simp [logTick, logEvent, hatt]
  | some atts =>
    cases hgl : atts.getLast? with
    | some a => simp [logTick, logEvent, hatt, hgl]
    | none =>
      rw [List.getLast?_eq_none_iff] at hgl
      subst hgl
      rw [loggable, hatt] at hl
      simp at hl

theorem logTick_ok_shape {jr : JobRec} {e : Event α}
    (hx : logTick α jr = Except.ok e) :
    (∃ k s u, e = Event.log_attempt k s u) ∨ e = Event.log_no_attempt := by
  cases hatt : jr.attempts with
  | none =>
    simp only [logTick, hatt] at hx
    right
    exact (Except.ok.inj hx).symm
  | some atts =>
    cases hgl : atts.getLast? with
    | some a =>
      simp only [logTick, hatt, hgl] at hx
      exact Or.inl ⟨atts.length, a.state, a.run_url, (Except.ok.inj hx).symm⟩
    | none =>
      simp only [logTick, hatt, hgl] at hx
      exact absurd hx (by simp)

/-- The fetch of call index `i` for job `jid`. -/
def fetchRec (op : TectonJobOperator α) (h : HookOracle α) (jid : String)
    (i : Nat) : JobRec :=
  h.get_materialization_job op.workspace op.feature_view jid i

/-- The events of a wait-for-cancellation loop that exits after `k`
not-yet-cancelled fetches. -/
def waitTrace (op : TectonJobOperator α) (jid : String) : Nat → List (Event α)
  | 0 => [Event.get_job op.workspace op.feature_view jid]
  | k + 1 =>
    Event.get_job op.workspace op.feature_view jid :: Event.log_waiting ::
      Event.sleep 60 :: waitTrace op jid k

theorem waitCancelled_spec (op : TectonJobOperator α) (h : HookOracle α)
    (jid : String) :
    ∀ (k n fuel : Nat),
    (∀ i, i < k →
      pyEndsWith (pyLower (fetchRec op h jid (n + i)).state) "manually_cancelled" = false) →
    pyEndsWith (pyLower (fetchRec op h jid (n + k)).state) "manually_cancelled" = true →
    k < fuel →
    waitCancelled op h jid n fuel = some (waitTrace op jid k, n + k + 1) := by
  intro k
  induction k with
  | zero =>
    intro n fuel _ hmc hfuel
    simp only [Nat.add_zero, fetchRec] at hmc
    match fuel, hfuel with
    | fuel' + 1, _ => simp [waitCancelled, hmc, waitTrace]
  | succ k ih =>
    intro n fuel hpre hmc hfuel
    match fuel, hfuel with
    | fuel' + 1, hfuel =>
      have h0 : pyEndsWith (pyLower (fetchRec op h jid n).state) "manually_cancelled" = false := by
        have := hpre 0 (Nat.succ_pos k)
        simpa using this
      have hrec := ih (n + 1) fuel'
        (fun i hi => by
          have e : n + 1 + i = n + (i + 1) := by omega
          rw [e]
          exact hpre (i + 1) (by omega))
        (by
          have e : n + 1 + k = n + (k + 1) := by omega
          rw [e]
          exact hmc)
        (by omega)
      simp only [fetchRec] at h0
      simp [waitCancelled, h0, hrec, waitTrace]
      omega

/-- The record the poll loop holds after `i` refetches, starting from
record `jr` with the get-call counter at `n`. -/
def pollChain (op : TectonJobOperator α) (h : HookOracle α) (jid : String)
    (jr : JobRec) (n : Nat) : Nat → JobRec
  | 0 => jr
  | i + 1 => fetchRec op h jid (n + i)

theorem pollChain_shift (op : TectonJobOperator α) (h : HookOracle α)
    (jid : String) (jr : JobRec) (n i : Nat) :
    pollChain op h jid jr n (i + 1) =
      pollChain op h jid (fetchRec op h jid n) (n + 1) i := by
  cases i with
  | zero => simp [pollChain]
  | succ j =>
    show fetchRec op h jid (n + (j + 1)) = fetchRec op h jid (n + 1 + j)
    congr 1
    omega

/-- The events of a poll loop that sees `N` running records before the
terminal one. -/
def pollTrace (op : TectonJobOperator α) (h : HookOracle α) (jid : String) :
    JobRec → Nat → Nat → List (Event α)
  | _, _, 0 => []
  | jr, n, N + 1 =>
    logEvent α jr :: Event.sleep 60 ::
      Event.get_job op.workspace op.feature_view jid ::
      pollTrace op h jid (fetchRec op h jid n) (n + 1) N

theorem pollLoop_spec (op : TectonJobOperator α) (h : HookOracle α)
    (jid : String) :
    ∀ (N : Nat) (jr : JobRec) (n fuel : Nat),
    (∀ i, i < N →
      pyEndsWith (pyUpper (pollChain op h jid jr n i).state) "RUNNING" = true ∧
      loggable (pollChain op h jid jr n i) = true) →
    pyEndsWith (pyUpper (pollChain op h jid jr n N).state) "RUNNING" = false →
    N ≤ fuel →
    pollLoop op h jid jr n fuel =
      some (pollTrace op h jid jr n N, n + N,
        PollResult.done (pollChain op h jid jr n N)) := by
  intro N
  induction N with
  | zero =>
    intro jr n fuel _ hnr _
    simp only [pollChain] at hnr ⊢
    cases fuel with
    | zero => simp [pollLoop, hnr, pollTrace]
    | succ f => simp [pollLoop, hnr, pollTrace]
  | succ N ih =>
    intro jr n fuel hpre hnr hfuel
    cases fuel with
    | zero => exact absurd hfuel (by omega)
    | succ fuel' =>
      have h0 := hpre 0 (Nat.succ_pos N)
      simp only [pollChain] at h0
      have hlog := logTick_eq_ok (α := α) h0.2
      have hrec := ih (fetchRec op h jid n) (n + 1) fuel'
        (fun i hi => by
          rw [← pollChain_shift]
          exact hpre (i + 1) (by omega))
        (by
          rw [← pollChain_shift]
          exact hnr)
        (by omega)
      rw [pollChain_shift] at hnr
      simp only [fetchRec] at hrec
      simp [pollLoop, h0.1, hlog, hrec, pollTrace, pollChain_shift, fetchRec]
      omega

/-! ## Which events each phase can emit -/

theorem waitCancelled_mem (op : TectonJobOperator α) (h : HookOracle α)
    (jid : String) :
    ∀ (fuel n : Nat) (tr : List (Event α)) (n' : Nat),
    waitCancelled op h jid n fuel = some (tr, n') →
    ∀ e ∈ tr, e = Event.get_job op.workspace op.feature_view jid ∨
      e = Event.log_waiting ∨ e = Event.sleep 60 := by
  intro fuel
  induction fuel with
  | zero =>
    intro n tr n' hx
    simp [waitCancelled] at hx
  | succ fuel ih =>
    intro n tr n' hx
    simp only [waitCancelled] at hx
    split at hx
    · simp only [Option.some.injEq, Prod.mk.injEq] at hx
      obtain ⟨h1, _⟩ := hx
      subst h1
      intro e he
      simp only [List.mem_singleton] at he
      subst he
      exact Or.inl rfl
    · cases hw : waitCancelled op h jid (n + 1) fuel with
      | none =>
        rw [hw] at hx
        simp at hx
      | some p =>
        obtain ⟨tr0, m⟩ := p
        rw [hw] at hx
        simp only [Option.some.injEq, Prod.mk.injEq] at hx
        obtain ⟨h1, _⟩ := hx
        subst h1
        intro e he
        simp only [List.mem_cons] at he
        rcases he with rfl | rfl | rfl | he
        · exact Or.inl rfl
        · exact Or.inr (Or.inl rfl)
        · exact Or.inr (Or.inr rfl)
        · exact ih (n + 1) tr0 m hw e he

theorem pollLoop_mem (op : TectonJobOperator α) (h : HookOracle α)
    (jid : String) :
    ∀ (fuel : Nat) (jr : JobRec) (n : Nat) (tr : List (Event α)) (n' : Nat)
      (r : PollResult),
    pollLoop op h jid jr n fuel = some (tr, n', r) →
    ∀ e ∈ tr, e = Event.get_job op.workspace op.feature_view jid ∨
      e = Event.sleep 60 ∨ (∃ k s u, e = Event.log_attempt k s u) ∨
      e = Event.log_no_attempt := by
  intro fuel
  induction fuel with
  | zero =>
    intro jr n tr n' r hx
    simp only [pollLoop] at hx
    split at hx
    · simp at hx
    · simp only [Option.some.injEq, Prod.mk.injEq] at hx
      obtain ⟨h1, _⟩ := hx
      subst h1
      intro e he
      simp at he
  | succ fuel ih =>
    intro jr n tr n' r hx
    simp only [pollLoop] at hx
    split at hx
    · cases hlt : logTick α jr with
      | error u =>
        rw [hlt] at hx
        simp only [Option.some.injEq, Prod.mk.injEq] at hx
        obtain ⟨h1, _⟩ := hx
        subst h1
        intro e he
        simp at he
      | ok ev =>
        rw [hlt] at hx
        cases hp : pollLoop op h jid
            (h.get_materialization_job op.workspace op.feature_view jid n)
            (n + 1) fuel with
        | none =>
          rw [hp] at hx
          simp at hx
        | some p =>
          obtain ⟨tr0, m, r0⟩ := p
          rw [hp] at hx
          simp only [Option.some.injEq, Prod.mk.injEq] at hx
          obtain ⟨h1, _⟩ := hx
          subst h1
          intro e he
          simp only [List.mem_cons] at he
          rcases he with rfl | rfl | rfl | he
          · rcases logTick_ok_shape hlt with ⟨k, s, u, rfl⟩ | rfl
            · exact Or.inr (Or.inr (Or.inl ⟨k, s, u, rfl⟩))
            · exact Or.inr (Or.inr (Or.inr rfl))
          · exact Or.inr (Or.inl rfl)
          · exact Or.inl rfl
          · exact ih _ (n + 1) tr0 m r0 hp e he
    · simp only [Option.some.injEq, Prod.mk.injEq] at hx
      obtain ⟨h1, _⟩ := hx
      subst h1
      intro e he
      simp at he

theorem pollLoop_done_not_running (op : TectonJobOperator α) (h : HookOracle α)
    (jid : String) :
    ∀ (fuel : Nat) (jr : JobRec) (n : Nat) (tr : List (Event α)) (n' : Nat)
      (final : JobRec),
    pollLoop op h jid jr n fuel = some (tr, n', PollResult.done final) →
    pyEndsWith (pyUpper final.state) "RUNNING" = false := by
  intro fuel
  induction fuel with
  | zero =>
    intro jr n tr n' final hx
    simp only [pollLoop] at hx
    split at hx
    · simp at hx
    · rename_i hcond
      simp only [Option.some.injEq, Prod.mk.injEq] at hx
      obtain ⟨_, _, h3⟩ := hx
      cases h3
      simpa using hcond
  | succ fuel ih =>
    intro jr n tr n' final hx
    simp only [pollLoop] at hx
    split at hx
    · cases hlt : logTick α jr with
      | error u =>
        rw [hlt] at hx
        simp at hx
      | ok ev =>
        rw [hlt] at hx
        cases hp : pollLoop op h jid
            (h.get_materialization_job op.workspace op.feature_view jid n)
            (n + 1) fuel with
        | none =>
          rw [hp] at hx
          simp at hx
        | some p =>
          obtain ⟨tr0, m, r0⟩ := p
          rw [hp] at hx
          simp only [Option.some.injEq, Prod.mk.injEq] at hx
          obtain ⟨_, _, h3⟩ := hx
          cases r0 with
          | done f0 =>
            cases h3
            exact ih _ (n + 1) tr0 m final hp
          | indexError => cases h3
    · rename_i hcond
      simp only [Option.some.injEq, Prod.mk.injEq] at hx
      obtain ⟨_, _, h3⟩ := hx
      cases h3
      simpa using hcond

/-- A poll-phase event: one of the four shapes `pollLoop` can emit. -/
def isPollEvent (op : TectonJobOperator α) (jid : String) (e : Event α) : Prop :=
  e = Event.get_job op.workspace op.feature_view jid ∨ e = Event.sleep 60 ∨
    (∃ k s u, e = Event.log_attempt k s u) ∨ e = Event.log_no_attempt

theorem afterSubmit_shape (op : TectonJobOperator α) (h : HookOracle α)
    (fuel n : Nat) (subEvents : List (Event α)) (jid : String)
    (tl : List (Event α)) (r : ExecResult)
    (hx : afterSubmit op h fuel n subEvents jid = some (tl, r)) :
    ∃ ptr, tl = subEvents ++ Event.get_job op.workspace op.feature_view jid :: ptr ∧
      (∀ e ∈ ptr, isPollEvent op jid e) ∧
      r ≠ ExecResult.skipped ∧
      (∀ s' rec, r = ExecResult.jobFailed s' rec → s' = rec.state ∧
        pyEndsWith (pyUpper rec.state) "RUNNING" = false ∧
        pyEndsWith (pyUpper rec.state) "SUCCESS" = false) := by
  simp only [afterSubmit] at hx
  cases hp : pollLoop op h jid
      (h.get_materialization_job op.workspace op.feature_view jid n)
      (n + 1) fuel with
  | none =>
    rw [hp] at hx
    simp at hx
  | some p =>
    obtain ⟨ptr, m, r0⟩ := p
    rw [hp] at hx
    cases r0 with
    | indexError =>
      simp only [Option.some.injEq, Prod.mk.injEq] at hx
      obtain ⟨h1, h2⟩ := hx
      subst h1
      subst h2
      exact ⟨ptr, rfl, fun e he => pollLoop_mem op h jid fuel _ (n + 1) ptr m _ hp e he,
        by simp, fun s' rec hr => by cases hr⟩
    | done final =>
      dsimp only at hx
      by_cases hsucc : pyEndsWith (pyUpper final.state) "SUCCESS" = true
      · rw [if_pos hsucc] at hx
        simp only [Option.some.injEq, Prod.mk.injEq] at hx
        obtain ⟨h1, h2⟩ := hx
        subst h1
        subst h2
        exact ⟨ptr, rfl, fun e he => pollLoop_mem op h jid fuel _ (n + 1) ptr m _ hp e he,
          by simp, fun s' rec hr => by cases hr⟩
      · rw [if_neg hsucc] at hx
        simp only [Option.some.injEq, Prod.mk.injEq] at hx
        obtain ⟨h1, h2⟩ := hx
        subst h1
        subst h2
        refine ⟨ptr, rfl, fun e he => pollLoop_mem op h jid fuel _ (n + 1) ptr m _ hp e he,
          by simp, fun s' rec hr => ?_⟩
        have h1 : s' = final.state ∧ rec = final := by
          cases hr
          exact ⟨rfl, rfl⟩
        obtain ⟨rfl, rfl⟩ := h1
        exact ⟨rfl, pollLoop_done_not_running op h jid fuel _ (n + 1) ptr m _ hp,
          by simpa using hsucc⟩

theorem submitPoll_shape (op : TectonJobOperator α) (h : HookOracle α)
    (fuel n : Nat) (tl : List (Event α)) (r : ExecResult)
    (hs : submitPoll op h fuel n = some (tl, r)) :
    r ≠ ExecResult.skipped ∧
    (∀ s' rec, r = ExecResult.jobFailed s' rec → s' = rec.state ∧
      pyEndsWith (pyUpper rec.state) "RUNNING" = false ∧
      pyEndsWith (pyUpper rec.state) "SUCCESS" = false) ∧
    ∃ ptr, (∀ e ∈ ptr, isPollEvent op (newJobId op h) e) ∧
      ((∃ g, op.df_generator = some g ∧
          tl = ingestBlock op h g ++
            Event.get_job op.workspace op.feature_view (newJobId op h) :: ptr) ∨
       (op.df_generator = none ∧
          tl = submitEvent op ::
            Event.get_job op.workspace op.feature_view (newJobId op h) :: ptr)) := by
  cases hg : op.df_generator with
  | some g =>
    rw [submitPoll, hg] at hs
    obtain ⟨ptr, h1, h2, h3, h4⟩ := afterSubmit_shape op h fuel n _ _ tl r hs
    exact ⟨h3, h4, ptr, h2, Or.inl ⟨g, rfl, h1⟩⟩
  | none =>
    rw [submitPoll, hg] at hs
    obtain ⟨ptr, h1, h2, h3, h4⟩ := afterSubmit_shape op h fuel n _ _ tl r hs
    exact ⟨h3, h4, ptr, h2, Or.inr ⟨rfl, h1⟩⟩

/-- The `find_job` event of an invocation. -/
def findEvent (op : TectonJobOperator α) : Event α :=
  Event.find_job op.workspace op.feature_view op.online op.offline
    op.start_time op.end_time (jobType op)

/-- The result of the `find_materialization_job` call of an invocation. -/
def findResult (op : TectonJobOperator α) (h : HookOracle α) : Option JobRec :=
  h.find_materialization_job op.workspace op.feature_view op.online
    op.offline op.start_time op.end_time (jobType op)

theorem execute_shape (op : TectonJobOperator α) (h : HookOracle α)
    (fuel : Nat) (tr : List (Event α)) (r : ExecResult)
    (hx : execute op h fuel = some (tr, r)) :
    (∃ job, findResult op h = some job ∧
      pyEndsWith (pyLower job.state) "success" = true ∧
      op.allow_overwrite = false ∧
      tr = [findEvent op, Event.log_existing job, Event.log_exiting] ∧
      r = ExecResult.skipped) ∨
    (∃ pre n tl, tr = pre ++ tl ∧ submitPoll op h fuel n = some (tl, r) ∧
      pre.countP isSubmissionCall = 0 ∧ pre.countP isStagingCall = 0 ∧
      pre.countP isUploadCall = 0 ∧ pre.countP isCancelCall ≤ 1) := by
  rw [execute] at hx
  cases hf : findResult op h with
  | none =>
    rw [findResult] at hf
    rw [hf] at hx
    rw [Option.map_eq_some'] at hx
    obtain ⟨⟨tl, r0⟩, hsp, hpr⟩ := hx
    simp only [Prod.mk.injEq] at hpr
    obtain ⟨h1, h2⟩ := hpr
    subst h2
    refine Or.inr ⟨[findEvent op], 0, tl, by simpa [findEvent] using h1.symm, hsp, ?_, ?_, ?_, ?_⟩ <;>
      simp [isSubmissionCall, isSubmitCall, isIngestCall, isStagingCall,
        isUploadCall, isCancelCall, findEvent]
  | some job =>
    rw [findResult] at hf
    rw [hf] at hx
    dsimp only at hx
    by_cases hrun : pyEndsWith (pyLower job.state) "running" = true
    · rw [if_pos hrun] at hx
      cases hw : waitCancelled op h job.id 0 fuel with
      | none =>
        rw [hw] at hx
        simp at hx
      | some p =>
        obtain ⟨wtr, n⟩ := p
        rw [hw] at hx
        rw [Option.map_eq_some'] at hx
        obtain ⟨⟨tl, r0⟩, hsp, hpr⟩ := hx
        simp only [Prod.mk.injEq] at hpr
        obtain ⟨h1, h2⟩ := hpr
        subst h2
        refine Or.inr ⟨findEvent op :: Event.log_existing job :: Event.log_cancelling ::
          Event.cancel_job op.workspace op.feature_view job.id :: wtr, n, tl,
          by simpa [findEvent, List.append_assoc] using h1.symm, hsp, ?_, ?_, ?_, ?_⟩
        · rw [List.countP_eq_zero]
          intro e he
          simp only [List.mem_cons] at he
          rcases he with rfl | rfl | rfl | rfl | he
          · simp [isSubmissionCall, isSubmitCall, isIngestCall, findEvent]
          · simp [isSubmissionCall, isSubmitCall, isIngestCall]
          · simp [isSubmissionCall, isSubmitCall, isIngestCall]
          · simp [isSubmissionCall, isSubmitCall, isIngestCall]
          · rcases waitCancelled_mem op h job.id fuel 0 wtr n hw e he with rfl | rfl | rfl <;>
              simp [isSubmissionCall, isSubmitCall, isIngestCall]
        · rw [List.countP_eq_zero]
          intro e he
          simp only [List.mem_cons] at he
          rcases he with rfl | rfl | rfl | rfl | he
          · simp [isStagingCall, findEvent]
          · simp [isStagingCall]
          · simp [isStagingCall]
          · simp [isStagingCall]
          · rcases waitCancelled_mem op h job.id fuel 0 wtr n hw e he with rfl | rfl | rfl <;>
              simp [isStagingCall]
        · rw [List.countP_eq_zero]
          intro e he
          simp only [List.mem_cons] at he
          rcases he with rfl | rfl | rfl | rfl | he
          · simp [isUploadCall, findEvent]
          · simp [isUploadCall]
          · simp [isUploadCall]
          · simp [isUploadCall]
          · rcases waitCancelled_mem op h job.id fuel 0 wtr n hw e he with rfl | rfl | rfl <;>
              simp [isUploadCall]
        · have hz : wtr.countP (isCancelCall (α := α)) = 0 := by
            rw [List.countP_eq_zero]
            intro e he
            rcases waitCancelled_mem op h job.id fuel 0 wtr n hw e he with rfl | rfl | rfl <;>
              simp [isCancelCall]
          simp [List.countP_cons, hz, isCancelCall, findEvent]
    · rw [if_neg hrun] at hx
      by_cases hsucc : pyEndsWith (pyLower job.state) "success" = true
      · rw [if_pos hsucc] at hx
        by_cases hov : op.allow_overwrite = true
        · rw [if_pos hov] at hx
          rw [Option.map_eq_some'] at hx
          obtain ⟨⟨tl, r0⟩, hsp, hpr⟩ := hx
          simp only [Prod.mk.injEq] at hpr
          obtain ⟨h1, h2⟩ := hpr
          subst h2
          refine Or.inr ⟨[findEvent op, Event.log_existing job, Event.log_overwrite],
            0, tl, by simpa [findEvent] using h1.symm, hsp, ?_, ?_, ?_, ?_⟩ <;>
            simp [isSubmissionCall, isSubmitCall, isIngestCall, isStagingCall,
              isUploadCall, isCancelCall, findEvent]
        · rw [if_neg hov] at hx
          simp only [Option.some.injEq, Prod.mk.injEq] at hx
          obtain ⟨h1, h2⟩ := hx
          exact Or.inl ⟨job, rfl, hsucc,
            by simpa using hov, by rw [← h1]; simp [findEvent], h2.symm⟩
      · rw [if_neg hsucc] at hx
        rw [Option.map_eq_some'] at hx
        obtain ⟨⟨tl, r0⟩, hsp, hpr⟩ := hx
        simp only [Prod.mk.injEq] at hpr
        obtain ⟨h1, h2⟩ := hpr
        subst h2
        refine Or.inr ⟨[findEvent op, Event.log_existing job], 0, tl,
          by simpa [findEvent] using h1.symm, hsp, ?_, ?_, ?_, ?_⟩ <;>
          simp [isSubmissionCall, isSubmitCall, isIngestCall, isStagingCall,
            isUploadCall, isCancelCall, findEvent]

/-! ## Auxiliary consequences of the decomposition -/

theorem pollLoop_congr (op : TectonJobOperator α) (h' h : HookOracle α)
    (jid : String)
    (hg : h'.get_materialization_job = h.get_materialization_job) :
    ∀ (fuel : Nat) (jr : JobRec) (n : Nat),
    pollLoop op h' jid jr n fuel = pollLoop op h jid jr n fuel := by
  intro fuel
  induction fuel with
  | zero => intro jr n; simp [pollLoop]
  | succ fuel ih => intro jr n; simp only [pollLoop, hg, ih]

theorem submitPoll_find_irrel (op : TectonJobOperator α) (h : HookOracle α)
    (f : String → String → Bool → Bool → String → String → String → Option JobRec)
    (fuel n : Nat) :
    submitPoll op { h with find_materialization_job := f } fuel n =
      submitPoll op h fuel n := by
  have hg : ({ h with find_materialization_job := f } : HookOracle α).get_materialization_job =
      h.get_materialization_job := rfl
  cases hdf : op.df_generator with
  | some g =>
    simp only [submitPoll, hdf, afterSubmit, ingestBlock, newJobId]
    rw [pollLoop_congr op _ h _ hg]
  | none =>
    simp only [submitPoll, hdf, afterSubmit, submitEvent, newJobId]
    rw [pollLoop_congr op _ h _ hg]

theorem submitPoll_no_cancel (op : TectonJobOperator α) (h : HookOracle α)
    (fuel n : Nat) (tl : List (Event α)) (r : ExecResult)
    (hs : submitPoll op h fuel n = some (tl, r)) :
    tl.countP isCancelCall = 0 := by
  obtain ⟨-, -, ptr, hmem, hcase⟩ := submitPoll_shape op h fuel n tl r hs
  have hptr : ∀ e ∈ ptr, ¬(isCancelCall e = true) := by
    intro e he
    rcases hmem e he with rfl | rfl | ⟨k, s, u, rfl⟩ | rfl <;> simp [isCancelCall]
  rcases hcase with ⟨g, -, rfl⟩ | ⟨-, rfl⟩
  · rw [List.countP_eq_zero]
    intro e he
    simp only [ingestBlock, List.mem_append, List.mem_cons, List.mem_singleton] at he
    rcases he with (rfl | rfl | rfl | rfl | he) | (rfl | he)
    · simp [isCancelCall]
    · simp [isCancelCall]
    · simp [isCancelCall]
    · simp [isCancelCall]
    · simp at he
    · simp [isCancelCall]
    · exact hptr e he
  · rw [List.countP_eq_zero]
    intro e he
    simp only [submitEvent, List.mem_cons] at he
    rcases he with rfl | rfl | he
    · simp [isCancelCall]
    · simp [isCancelCall]
    · exact hptr e he

theorem submitPoll_one_submission (op : TectonJobOperator α) (h : HookOracle α)
    (fuel n : Nat) (tl : List (Event α)) (r : ExecResult)
    (hs : submitPoll op h fuel n = some (tl, r)) :
    tl.countP isSubmissionCall = 1 := by
  obtain ⟨-, -, ptr, hmem, hcase⟩ := submitPoll_shape op h fuel n tl r hs
  have hptr : ptr.countP (isSubmissionCall (α := α)) = 0 := by
    rw [List.countP_eq_zero]
    intro e he
    rcases hmem e he with rfl | rfl | ⟨k, s, u, rfl⟩ | rfl <;>
      simp [isSubmissionCall, isSubmitCall, isIngestCall]
  rcases hcase with ⟨g, -, rfl⟩ | ⟨-, rfl⟩
  · simp [ingestBlock, List.countP_cons, List.countP_append, hptr,
      isSubmissionCall, isSubmitCall, isIngestCall]
  · simp [submitEvent, List.countP_cons, hptr,
      isSubmissionCall, isSubmitCall, isIngestCall]

/-! ## Concrete stubs used by the witnesses and counterexamples -/

/-- A scriptable stub hook over trivial dataframes: a fixed find result
and a response schedule for the get calls. -/
def stubHook (find : Option JobRec) (get : Nat → JobRec) : HookOracle Unit :=
  { find_materialization_job := fun _ _ _ _ _ _ _ => find
    get_materialization_job := fun _ _ _ n => get n
    submit_materialization_job := fun _ _ _ _ _ _ _ _ => "j-new"
    get_dataframe_info := fun _ _ => ⟨"df-path-1", "signed-url-1"⟩
    ingest_dataframe := fun _ _ _ => "j-new" }

/-- A concrete batch operator configuration (no dataframe producer). -/
def opBatch : TectonJobOperator Unit :=
  { workspace := "prod", feature_view := "fv", online := true,
    offline := false, start_time := "2022-01-01", end_time := "2022-01-02",
    allow_overwrite := false, df_generator := none }

/-- A concrete ingest operator configuration (with a trivial producer). -/
def opIngest : TectonJobOperator Unit :=
  { opBatch with df_generator := some (fun _ => ()) }

/-! ## The claims -/

/-- C1: for every invocation of `execute` where the client finds an
existing job for the query whose state is terminal-success (ends,
ignoring case, in "success") and `allow_overwrite` is false, `execute`
returns immediately with the skip outcome and its trace performs no
submit, ingest, or cancel call on the client. -/
theorem c1_skip_idempotence (op : TectonJobOperator α) (h : HookOracle α)
    (fuel : Nat) (job : JobRec)
    (hfind : findResult op h = some job)
    (hsucc : pyEndsWith (pyLower job.state) "success" = true)
    (hov : op.allow_overwrite = false) :
    execute op h fuel =
      some ([findEvent op, Event.log_existing job, Event.log_exiting],
        ExecResult.skipped) ∧
    ∀ (tr : List (Event α)) (r : ExecResult),
      execute op h fuel = some (tr, r) →
      tr.countP isSubmitCall = 0 ∧ tr.countP isIngestCall = 0 ∧
      tr.countP isCancelCall = 0 := by
  have hrun : pyEndsWith (pyLower job.state) "running" = false := by
    cases hr : pyEndsWith (pyLower job.state) "running" with
    | false => rfl
    | true => exact absurd hsucc (by simp [running_not_success hr])
  have hmain : execute op h fuel =
      some ([findEvent op, Event.log_existing job, Event.log_exiting],
        ExecResult.skipped) := by
    rw [execute, findResult] at *
    rw [hfind]
    dsimp only
    rw [if_neg (by simp [hrun]), if_pos hsucc, if_neg (by simp [hov])]
    rfl
  refine ⟨hmain, fun tr r hx => ?_⟩
  rw [hmain] at hx
  simp only [Option.some.injEq, Prod.mk.injEq] at hx
  obtain ⟨h1, -⟩ := hx
  subst h1
  refine ⟨?_, ?_, ?_⟩ <;>
    simp [findEvent, isSubmitCall, isIngestCall, isCancelCall]

/-- Witness for C1: a stub whose existing job is in state `SUCCESS`. -/
theorem c1_skip_idempotence_witness :
    execute opBatch
      (stubHook (some ⟨"j0", "SUCCESS", none⟩) (fun _ => ⟨"j0", "SUCCESS", none⟩)) 3 =
      some ([findEvent opBatch, Event.log_existing ⟨"j0", "SUCCESS", none⟩,
        Event.log_exiting], ExecResult.skipped) :=
  (c1_skip_idempotence opBatch
    (stubHook (some ⟨"j0", "SUCCESS", none⟩) (fun _ => ⟨"j0", "SUCCESS", none⟩)) 3
    ⟨"j0", "SUCCESS", none⟩ rfl (by decide) rfl).1

/-- C10: for every invocation of `execute` where the client finds an
existing job whose state is classified neither running nor success,
`execute` proceeds directly to submission: no cancel call, no skip, and
the rest of the run is exactly the run of an oracle with no prior job,
apart from the extra log line about the existing record. -/
theorem c10_stale_job_resubmits (op : TectonJobOperator α) (h : HookOracle α)
    (fuel : Nat) (job : JobRec)
    (hfind : findResult op h = some job)
    (hrun : pyEndsWith (pyLower job.state) "running" = false)
    (hsucc : pyEndsWith (pyLower job.state) "success" = false) :
    execute op h fuel =
      (submitPoll op h fuel 0).map (fun p =>
        (findEvent op :: Event.log_existing job :: p.1, p.2)) ∧
    execute op { h with find_materialization_job := fun _ _ _ _ _ _ _ => none } fuel =
      (submitPoll op h fuel 0).map (fun p => (findEvent op :: p.1, p.2)) ∧
    ∀ (tr : List (Event α)) (r : ExecResult),
      execute op h fuel = some (tr, r) →
      tr.countP isCancelCall = 0 ∧ r ≠ ExecResult.skipped := by
  have hmain : execute op h fuel =
      (submitPoll op h fuel 0).map (fun p =>
        (findEvent op :: Event.log_existing job :: p.1, p.2)) := by
    rw [execute, findResult] at *
    rw [hfind]
    dsimp only
    rw [if_neg (by simp [hrun]), if_neg (by simp [hsucc])]
    rfl
  refine ⟨hmain, ?_, fun tr r hx => ?_⟩
  · rw [execute]
    dsimp only
    rw [submitPoll_find_irrel]
    rfl
  · rw [hmain, Option.map_eq_some'] at hx
    obtain ⟨⟨tl, r0⟩, hsp, hpr⟩ := hx
    simp only [Prod.mk.injEq] at hpr
    obtain ⟨h1, h2⟩ := hpr
    subst h2
    subst h1
    obtain ⟨hns, -, -⟩ := submitPoll_shape op h fuel 0 tl _ hsp
    refine ⟨?_, hns⟩
    have hz := submitPoll_no_cancel op h fuel 0 tl _ hsp
    simp [List.countP_cons, hz, findEvent, isCancelCall]

/-- Witness for C10: a stub whose existing job ended in state `ERROR`;
the run resubmits and completes. -/
theorem c10_stale_job_resubmits_witness :
    execute opBatch
      (stubHook (some ⟨"j0", "ERROR", none⟩) (fun _ => ⟨"j-new", "SUCCESS", none⟩)) 3 =
      some ([findEvent opBatch, Event.log_existing ⟨"j0", "ERROR", none⟩,
        submitEvent opBatch, Event.get_job "prod" "fv" "j-new"],
        ExecResult.completed) := by
  have hm := (c10_stale_job_resubmits opBatch
    (stubHook (some ⟨"j0", "ERROR", none⟩) (fun _ => ⟨"j-new", "SUCCESS", none⟩)) 3
    ⟨"j0", "ERROR", none⟩ rfl (by decide) (by decide)).1
  rw [hm]
  rfl

/-! ## Fresh-submission runs (no matching prior job) -/

theorem pyEndsWith_excl {s a b : String}
    (hlen : a.data.length = b.data.length) (hne : ¬ a.data = b.data)
    (ha : pyEndsWith s a = true) : pyEndsWith s b = false := by
  cases hb : pyEndsWith s b with
  | false => rfl
  | true =>
    have h1 : a.data <:+ s.data := of_decide_eq_true ha
    have h2 : b.data <:+ s.data := of_decide_eq_true hb
    exact absurd (suffix_eq_of_length h1 h2 hlen) hne

theorem pollChain_fetchRec (op : TectonJobOperator α) (h : HookOracle α)
    (jid : String) :
    ∀ i, pollChain op h jid (fetchRec op h jid 0) 1 i = fetchRec op h jid i := by
  intro i
  cases i with
  | zero => rfl
  | succ j =>
    show fetchRec op h jid (1 + j) = fetchRec op h jid (j + 1)
    congr 1
    omega

theorem logEvent_classify (jr : JobRec) :
    isGetCall (logEvent α jr) = false ∧ isSleepCall (logEvent α jr) = false ∧
    isSubmissionCall (logEvent α jr) = false ∧ isCancelCall (logEvent α jr) = false := by
  cases hatt : jr.attempts with
  | none => simp [logEvent, hatt, isGetCall, isSleepCall, isSubmissionCall,
      isSubmitCall, isIngestCall, isCancelCall]
  | some atts =>
    cases hgl : atts.getLast? with
    | some a => simp [logEvent, hatt, hgl, isGetCall, isSleepCall,
        isSubmissionCall, isSubmitCall, isIngestCall, isCancelCall]
    | none => simp [logEvent, hatt, hgl, isGetCall, isSleepCall,
        isSubmissionCall, isSubmitCall, isIngestCall, isCancelCall]

theorem pollTrace_counts (op : TectonJobOperator α) (h : HookOracle α)
    (jid : String) :
    ∀ (N : Nat) (jr : JobRec) (n : Nat),
    (pollTrace op h jid jr n N).countP isGetCall = N ∧
    (pollTrace op h jid jr n N).filter isSleepCall =
      List.replicate N (Event.sleep 60) := by
  intro N
  induction N with
  | zero => intro jr n; simp [pollTrace]
  | succ N ih =>
    intro jr n
    obtain ⟨ih1, ih2⟩ := ih (fetchRec op h jid n) (n + 1)
    obtain ⟨hg, hs, -, -⟩ := logEvent_classify (α := α) jr
    have e1 : isGetCall (α := α) (Event.sleep 60) = false := rfl
    have e2 : isGetCall (α := α) (Event.get_job op.workspace op.feature_view jid) = true := rfl
    have e3 : isSleepCall (α := α) (Event.sleep 60) = true := rfl
    have e4 : isSleepCall (α := α) (Event.get_job op.workspace op.feature_view jid) = false := rfl
    constructor
    · simp [pollTrace, List.countP_cons, ih1, hg, e1, e2]
    · simp [pollTrace, List.filter_cons, hs, ih2, e3, e4, List.replicate]

/-- The submission-call block of a fresh run: the four ingest-path events
when a producer is present, else the single direct submit call. -/
def subEventsOf (op : TectonJobOperator α) (h : HookOracle α) : List (Event α) :=
  match op.df_generator with
  | some g => ingestBlock op h g
  | none => [submitEvent op]

theorem execute_fresh_poll (op : TectonJobOperator α) (h : HookOracle α)
    (N fuel : Nat)
    (hfind : findResult op h = none)
    (hrun : ∀ i, i < N →
      pyEndsWith (pyUpper (fetchRec op h (newJobId op h) i).state) "RUNNING" = true ∧
      loggable (fetchRec op h (newJobId op h) i) = true)
    (hterm : pyEndsWith (pyUpper (fetchRec op h (newJobId op h) N).state) "RUNNING" = false)
    (hfuel : N ≤ fuel) :
    execute op h fuel =
      some (findEvent op :: (subEventsOf op h ++
          Event.get_job op.workspace op.feature_view (newJobId op h) ::
          pollTrace op h (newJobId op h) (fetchRec op h (newJobId op h) 0) 1 N),
        if pyEndsWith (pyUpper (fetchRec op h (newJobId op h) N).state) "SUCCESS" = true
        then ExecResult.completed
        else ExecResult.jobFailed (fetchRec op h (newJobId op h) N).state
          (fetchRec op h (newJobId op h) N)) := by
  have hchain := pollChain_fetchRec op h (newJobId op h)
  have hpoll := pollLoop_spec op h (newJobId op h) N
    (fetchRec op h (newJobId op h) 0) 1 fuel
    (fun i hi => by rw [hchain i]; exact hrun i hi)
    (by rw [hchain N]; exact hterm)
    hfuel
  rw [hchain N] at hpoll
  simp only [fetchRec] at hpoll
  rw [execute, findResult] at *
  rw [hfind]
  dsimp only
  cases hdf : op.df_generator with
  | some g =>
    rw [submitPoll, hdf]
    simp only [afterSubmit, hpoll]
    by_cases hsucc : pyEndsWith (pyUpper (h.get_materialization_job op.workspace
        op.feature_view (newJobId op h) N).state) "SUCCESS" = true
    · rw [if_pos hsucc]
      simp only [fetchRec, if_pos hsucc, subEventsOf, hdf]
      rfl
    · rw [if_neg hsucc]
      simp only [fetchRec, if_neg hsucc, subEventsOf, hdf]
      rfl
  | none =>
    rw [submitPoll, hdf]
    simp only [afterSubmit, hpoll]
    by_cases hsucc : pyEndsWith (pyUpper (h.get_materialization_job op.workspace
        op.feature_view (newJobId op h) N).state) "SUCCESS" = true
    · rw [if_pos hsucc]
      simp only [fetchRec, if_pos hsucc, subEventsOf, hdf]
      rfl
    · rw [if_neg hsucc]
      simp only [fetchRec, if_neg hsucc, subEventsOf, hdf]
      rfl

/-- Stub for the poll-convergence scenarios: no prior job; the submitted
job is `RUNNING` on the first fetch and `SUCCESS` afterwards. -/
def stubC3run : HookOracle Unit :=
  stubHook none (fun n =>
    if n = 0 then ⟨"j-new", "RUNNING", none⟩ else ⟨"j-new", "SUCCESS", none⟩)

/-- C3 (amended): for every N and every client stub that finds no prior
job and, after submission, reports the job in a running state for the
first N fetches — with records that survive the logging step, see the
counterexample — and a success state on fetch N+1, `execute` performs
exactly N+1 fetches, sleeps exactly N times of 60 seconds each, and
returns the completed outcome. -/
theorem c3_poll_convergence (op : TectonJobOperator α) (h : HookOracle α)
    (N fuel : Nat)
    (hfind : findResult op h = none)
    (hrun : ∀ i, i < N →
      pyEndsWith (pyUpper (fetchRec op h (newJobId op h) i).state) "RUNNING" = true ∧
      loggable (fetchRec op h (newJobId op h) i) = true)
    (hsucc : pyEndsWith (pyUpper (fetchRec op h (newJobId op h) N).state) "SUCCESS" = true)
    (hfuel : N ≤ fuel) :
    ∃ tr, execute op h fuel = some (tr, ExecResult.completed) ∧
      tr.countP isGetCall = N + 1 ∧
      tr.filter isSleepCall = List.replicate N (Event.sleep 60) := by
  have hterm : pyEndsWith (pyUpper (fetchRec op h (newJobId op h) N).state) "RUNNING" = false :=
    pyEndsWith_excl (by decide) (by decide) hsucc
  have hx := execute_fresh_poll op h N fuel hfind hrun hterm hfuel
  rw [if_pos hsucc] at hx
  obtain ⟨hc, hf⟩ := pollTrace_counts op h (newJobId op h) N
    (fetchRec op h (newJobId op h) 0) 1
  have e0 : isGetCall (α := α) (findEvent op) = false := rfl
  have e1 : isGetCall (α := α)
      (Event.get_job op.workspace op.feature_view (newJobId op h)) = true := rfl
  have e2 : isSleepCall (α := α) (findEvent op) = false := rfl
  have e3 : isSleepCall (α := α)
      (Event.get_job op.workspace op.feature_view (newJobId op h)) = false := rfl
  have hsubg : (subEventsOf op h).countP (isGetCall (α := α)) = 0 := by
    rw [subEventsOf]
    cases op.df_generator <;>
      simp [ingestBlock, submitEvent, List.countP_cons, isGetCall]
  have hsubs : (subEventsOf op h).filter (isSleepCall (α := α)) = [] := by
    rw [subEventsOf]
    cases op.df_generator <;>
      simp [ingestBlock, submitEvent, List.filter_cons, isSleepCall]
  refine ⟨_, hx, ?_, ?_⟩
  · simp [List.countP_cons, List.countP_append, hc, hsubg, e0, e1]
  · simp [List.filter_cons, List.filter_append, hf, hsubs, e2, e3]

/-- Counterexample to C3 as stated: a stub that reports the submitted
job as running on the first fetch with an `attempts` list that is present
but empty.  With N = 1 the claim promises 2 fetches, 1 sleep and the
completed outcome, but the run dies with the uncaught `IndexError` of
`attempts[-1]` after a single fetch and no sleep. -/
theorem c3_poll_convergence_counterexample :
    pyEndsWith (pyUpper "RUNNING") "RUNNING" = true ∧
    pyEndsWith (pyUpper "SUCCESS") "SUCCESS" = true ∧
    execute opBatch
      (stubHook none (fun n =>
        if n = 0 then ⟨"j-new", "RUNNING", some []⟩
        else ⟨"j-new", "SUCCESS", none⟩)) 5 =
      some ([findEvent opBatch, submitEvent opBatch,
        Event.get_job "prod" "fv" "j-new"], ExecResult.indexError) :=
  ⟨by decide, by decide, rfl⟩

/-- Witness for C3 (amended) at N = 1 on the concrete stub. -/
theorem c3_poll_convergence_witness :
    ∃ tr, execute opBatch stubC3run 2 = some (tr, ExecResult.completed) ∧
      tr.countP isGetCall = 1 + 1 ∧
      tr.filter isSleepCall = List.replicate 1 (Event.sleep 60) :=
  c3_poll_convergence opBatch stubC3run 1 2 rfl
    (fun i hi => by
      have hi0 : i = 0 := by omega
      subst hi0
      exact ⟨by decide, by decide⟩)
    (by decide) (by omega)

/-- C4: a jobFailed outcome always carries exactly the final fetched
state string and the full last-fetched record, and a polled job that
reaches a state classified neither running nor success makes `execute`
produce that jobFailed outcome instead of returning normally. -/
theorem c4_failure_propagation :
    (∀ (op : TectonJobOperator α) (h : HookOracle α) (fuel : Nat)
      (tr : List (Event α)) (s : String) (rec : JobRec),
      execute op h fuel = some (tr, ExecResult.jobFailed s rec) →
      s = rec.state ∧ pyEndsWith (pyUpper rec.state) "RUNNING" = false ∧
      pyEndsWith (pyUpper rec.state) "SUCCESS" = false) ∧
    (∀ (op : TectonJobOperator α) (h : HookOracle α) (N fuel : Nat),
      findResult op h = none →
      (∀ i, i < N →
        pyEndsWith (pyUpper (fetchRec op h (newJobId op h) i).state) "RUNNING" = true ∧
        loggable (fetchRec op h (newJobId op h) i) = true) →
      pyEndsWith (pyUpper (fetchRec op h (newJobId op h) N).state) "RUNNING" = false →
      pyEndsWith (pyUpper (fetchRec op h (newJobId op h) N).state) "SUCCESS" = false →
      N ≤ fuel →
      ∃ tr, execute op h fuel =
        some (tr, ExecResult.jobFailed (fetchRec op h (newJobId op h) N).state
          (fetchRec op h (newJobId op h) N))) := by
  constructor
  · intro op h fuel tr s rec hx
    rcases execute_shape op h fuel tr _ hx with
      ⟨job, -, -, -, -, habs⟩ | ⟨pre, n, tl, -, hsp, -, -, -, -⟩
    · exact absurd habs (by simp)
    · obtain ⟨-, himp, -⟩ := submitPoll_shape op h fuel n tl _ hsp
      exact himp s rec rfl
  · intro op h N fuel hfind hrun hterm hsucc hfuel
    have hx := execute_fresh_poll op h N fuel hfind hrun hterm hfuel
    rw [if_neg (by simp [hsucc])] at hx
    exact ⟨_, hx⟩

/-- Witness for C4: a fresh submission whose first fetch is already the
terminal failure state `ERROR`. -/
theorem c4_failure_propagation_witness :
    ∃ tr, execute opBatch
      (stubHook none (fun _ => ⟨"j-new", "ERROR", none⟩)) 3 =
      some (tr, ExecResult.jobFailed "ERROR" ⟨"j-new", "ERROR", none⟩) :=
  (c4_failure_propagation (α := Unit)).2 opBatch
    (stubHook none (fun _ => ⟨"j-new", "ERROR", none⟩)) 0 3 rfl
    (fun i hi => absurd hi (by omega)) (by decide) (by decide) (by omega)

theorem waitTrace_counts (op : TectonJobOperator α) (jid : String) :
    ∀ k, (waitTrace op jid k).countP isCancelCall = 0 ∧
      (waitTrace op jid k).countP isSubmissionCall = 0 := by
  intro k
  induction k with
  | zero =>
    simp [waitTrace, List.countP_cons, isCancelCall, isSubmissionCall,
      isSubmitCall, isIngestCall]
  | succ k ih =>
    simp [waitTrace, List.countP_cons, ih.1, ih.2, isCancelCall,
      isSubmissionCall, isSubmitCall, isIngestCall]

/-- C2 (amended): an existing job in a running state triggers exactly one
cancel call for that job id, then the wait loop refetches that job until
the fetched state ends (ignoring case) in "manually_cancelled" — not
necessarily the exact string MANUALLY_CANCELLED, see the counterexample —
and only after that observation does the run fall through to exactly one
submission; no submission call occurs before the cancellation was
observed, and the cancellation branch never returns early. -/
theorem c2_cancel_and_replace (op : TectonJobOperator α) (h : HookOracle α)
    (fuel k : Nat) (job : JobRec)
    (hfind : findResult op h = some job)
    (hrun : pyEndsWith (pyLower job.state) "running" = true)
    (hpre : ∀ i, i < k →
      pyEndsWith (pyLower (fetchRec op h job.id i).state) "manually_cancelled" = false)
    (hmc : pyEndsWith (pyLower (fetchRec op h job.id k).state) "manually_cancelled" = true)
    (hfuel : k < fuel) :
    ∀ (tl : List (Event α)) (r : ExecResult),
      submitPoll op h fuel (k + 1) = some (tl, r) →
      execute op h fuel =
        some (findEvent op :: Event.log_existing job :: Event.log_cancelling ::
          Event.cancel_job op.workspace op.feature_view job.id ::
          (waitTrace op job.id k ++ tl), r) ∧
      (findEvent op :: Event.log_existing job :: Event.log_cancelling ::
        Event.cancel_job op.workspace op.feature_view job.id ::
        (waitTrace op job.id k ++ tl)).countP isCancelCall = 1 ∧
      (waitTrace op job.id k).countP isSubmissionCall = 0 ∧
      tl.countP isSubmissionCall = 1 ∧ tl.countP isCancelCall = 0 := by
  intro tl r hsp
  have hw : waitCancelled op h job.id 0 fuel =
      some (waitTrace op job.id k, k + 1) := by
    have := waitCancelled_spec op h job.id k 0 fuel
      (fun i hi => by simpa using hpre i hi) (by simpa using hmc) hfuel
    simpa using this
  have hmain : execute op h fuel =
      some (findEvent op :: Event.log_existing job :: Event.log_cancelling ::
        Event.cancel_job op.workspace op.feature_view job.id ::
        (waitTrace op job.id k ++ tl), r) := by
    rw [execute, findResult] at *
    rw [hfind]
    dsimp only
    rw [if_pos hrun, hw]
    dsimp only
    rw [hsp]
    rfl
  obtain ⟨hwc, hws⟩ := waitTrace_counts op job.id k
  have htlc := submitPoll_no_cancel op h fuel (k + 1) tl r hsp
  have htls := submitPoll_one_submission op h fuel (k + 1) tl r hsp
  have e0 : isCancelCall (α := α) (findEvent op) = false := rfl
  have e1 : isCancelCall (α := α) (Event.log_existing job) = false := rfl
  have e2 : isCancelCall (α := α)
      (Event.cancel_job op.workspace op.feature_view job.id) = true := rfl
  have e3 : isCancelCall (α := α) Event.log_cancelling = false := rfl
  refine ⟨hmain, ?_, hws, htls, htlc⟩
  simp [List.countP_cons, List.countP_append, hwc, htlc, e0, e1, e2, e3]

/-- Stub falsifying C2 as stated: the existing running job, once
cancelled, is reported in state `BATCH_MANUALLY_CANCELLED`. -/
def stubC2cex : HookOracle Unit :=
  stubHook (some ⟨"j0", "RUNNING", none⟩) (fun n =>
    if n = 0 then ⟨"j0", "BATCH_MANUALLY_CANCELLED", none⟩
    else ⟨"j-new", "SUCCESS", none⟩)

/-- Counterexample to C2 as stated: the wait loop exits on the state
`BATCH_MANUALLY_CANCELLED` — which ends in, but is not exactly,
`MANUALLY_CANCELLED` — and the run then submits and completes, so the
submission happens although no fetch ever returned the exact string the
claim requires the loop to wait for.  The two conjuncts after the trace
show that neither of the two fetched records carried the exact state. -/
theorem c2_cancel_and_replace_counterexample :
    execute opBatch stubC2cex 3 =
      some ([findEvent opBatch, Event.log_existing ⟨"j0", "RUNNING", none⟩,
        Event.log_cancelling, Event.cancel_job "prod" "fv" "j0",
        Event.get_job "prod" "fv" "j0",
        submitEvent opBatch, Event.get_job "prod" "fv" "j-new"],
        ExecResult.completed) ∧
    (stubC2cex.get_materialization_job "prod" "fv" "j0" 0).state ≠
      "MANUALLY_CANCELLED" ∧
    (stubC2cex.get_materialization_job "prod" "fv" "j-new" 1).state ≠
      "MANUALLY_CANCELLED" :=
  ⟨rfl, by decide, by decide⟩

/-- Stub for the C2 witness: the cancelled job reports exactly
`MANUALLY_CANCELLED` on the first wait fetch. -/
def stubC2wit : HookOracle Unit :=
  stubHook (some ⟨"j0", "RUNNING", none⟩) (fun n =>
    if n = 0 then ⟨"j0", "MANUALLY_CANCELLED", none⟩
    else ⟨"j-new", "SUCCESS", none⟩)

/-- Witness for C2 (amended) with k = 0 on the concrete stub. -/
theorem c2_cancel_and_replace_witness :
    execute opBatch stubC2wit 3 =
      some (findEvent opBatch :: Event.log_existing ⟨"j0", "RUNNING", none⟩ ::
        Event.log_cancelling :: Event.cancel_job "prod" "fv" "j0" ::
        (waitTrace opBatch "j0" 0 ++
          [submitEvent opBatch, Event.get_job "prod" "fv" "j-new"]),
        ExecResult.completed) ∧
    (findEvent opBatch :: Event.log_existing ⟨"j0", "RUNNING", none⟩ ::
      Event.log_cancelling :: Event.cancel_job "prod" "fv" "j0" ::
      (waitTrace opBatch "j0" 0 ++
        [submitEvent opBatch, Event.get_job "prod" "fv" "j-new"])).countP
      isCancelCall = 1 ∧
    (waitTrace opBatch "j0" 0).countP isSubmissionCall = 0 ∧
    ([submitEvent opBatch,
      Event.get_job "prod" "fv" "j-new"] : List (Event Unit)).countP
      isSubmissionCall = 1 ∧
    ([submitEvent opBatch,
      Event.get_job "prod" "fv" "j-new"] : List (Event Unit)).countP
      isCancelCall = 0 :=
  c2_cancel_and_replace opBatch stubC2wit 3 0 ⟨"j0", "RUNNING", none⟩ rfl
    (by decide) (fun i hi => absurd hi (by omega)) (by decide) (by omega)
    [submitEvent opBatch, Event.get_job "prod" "fv" "j-new"]
    ExecResult.completed rfl

theorem countP_zero_of_sub {l : List (Event α)} {p q : Event α → Bool}
    (hl : l.countP p = 0) (himp : ∀ e, q e = true → p e = true) :
    l.countP q = 0 := by
  rw [List.countP_eq_zero] at hl ⊢
  intro e he hq
  exact hl e he (himp e hq)

/-- C6: whenever a dataframe producer is supplied and the submission step
is reached, the trace contains — contiguously and in order — the
staging-coordinates call, the producer invocation, the upload with the
exact signed url returned by staging, and the ingest call with the
destination path returned by staging, the uploaded dataframe being
exactly the producer's output; and no direct submit call occurs.  When no
producer is supplied, no staging, upload or ingest call ever occurs:
the ingest path is taken if and only if a producer is supplied. -/
theorem c6_ingest_wiring (op : TectonJobOperator α) (h : HookOracle α)
    (fuel : Nat) (tr : List (Event α)) (r : ExecResult)
    (hx : execute op h fuel = some (tr, r)) :
    (∀ g, op.df_generator = some g → r ≠ ExecResult.skipped →
      ingestBlock op h g <:+: tr ∧ tr.countP isSubmitCall = 0) ∧
    (op.df_generator = none →
      tr.countP isIngestCall = 0 ∧ tr.countP isStagingCall = 0 ∧
      tr.countP isUploadCall = 0) := by
  constructor
  · intro g hg hr
    rcases execute_shape op h fuel tr r hx with
      ⟨job, -, -, -, -, hr2⟩ | ⟨pre, n, tl, rfl, hsp, hpresub, -, -, -⟩
    · exact absurd hr2 hr
    · obtain ⟨-, -, ptr, hmem, hcase⟩ := submitPoll_shape op h fuel n tl r hsp
      rcases hcase with ⟨g', hg', rfl⟩ | ⟨hg', -⟩
      · rw [hg] at hg'
        obtain rfl : g = g' := Option.some.inj hg'
        constructor
        · exact ⟨pre, Event.get_job op.workspace op.feature_view (newJobId op h) :: ptr,
            by simp [List.append_assoc]⟩
        · rw [List.countP_append]
          have h1 : pre.countP (isSubmitCall (α := α)) = 0 :=
            countP_zero_of_sub hpresub
              (fun e hq => by simp [isSubmissionCall, hq])
          have h2 : (ingestBlock op h g ++
              Event.get_job op.workspace op.feature_view (newJobId op h) ::
                ptr).countP (isSubmitCall (α := α)) = 0 := by
            rw [List.countP_eq_zero]
            intro e he
            simp only [ingestBlock, List.mem_append, List.mem_cons,
              List.mem_singleton] at he
            rcases he with (rfl | rfl | rfl | rfl | he) | (rfl | he)
            · simp [isSubmitCall]
            · simp [isSubmitCall]
            · simp [isSubmitCall]
            · simp [isSubmitCall]
            · simp at he
            · simp [isSubmitCall]
            · rcases hmem e he with rfl | rfl | ⟨k, st, u, rfl⟩ | rfl <;>
                simp [isSubmitCall]
          rw [h1, h2]
      · rw [hg] at hg'
        exact Option.noConfusion hg'
  · intro hg
    rcases execute_shape op h fuel tr r hx with
      ⟨job, -, -, -, rfl, -⟩ | ⟨pre, n, tl, rfl, hsp, hpresub, hprestg, hpreupl, -⟩
    · refine ⟨?_, ?_, ?_⟩ <;>
        simp [List.countP_cons, findEvent, isIngestCall, isStagingCall,
          isUploadCall]
    · obtain ⟨-, -, ptr, hmem, hcase⟩ := submitPoll_shape op h fuel n tl r hsp
      rcases hcase with ⟨g', hg', -⟩ | ⟨-, rfl⟩
      · rw [hg] at hg'
        exact Option.noConfusion hg'
      · have hptr : ∀ (q : Event α → Bool),
            (∀ e, isPollEvent op (newJobId op h) e → q e = false) →
            ptr.countP q = 0 := by
          intro q hq
          rw [List.countP_eq_zero]
          intro e he hqe
          rw [hq e (hmem e he)] at hqe
          exact Bool.false_ne_true hqe
        have hpoll_ing : ptr.countP (isIngestCall (α := α)) = 0 :=
          hptr _ (fun e hpe => by
            rcases hpe with rfl | rfl | ⟨k, st, u, rfl⟩ | rfl <;>
              simp [isIngestCall])
        have hpoll_stg : ptr.countP (isStagingCall (α := α)) = 0 :=
          hptr _ (fun e hpe => by
            rcases hpe with rfl | rfl | ⟨k, st, u, rfl⟩ | rfl <;>
              simp [isStagingCall])
        have hpoll_upl : ptr.countP (isUploadCall (α := α)) = 0 :=
          hptr _ (fun e hpe => by
            rcases hpe with rfl | rfl | ⟨k, st, u, rfl⟩ | rfl <;>
              simp [isUploadCall])
        have hpre_ing : pre.countP (isIngestCall (α := α)) = 0 :=
          countP_zero_of_sub hpresub
            (fun e hq => by simp [isSubmissionCall, hq])
        refine ⟨?_, ?_, ?_⟩ <;>
          simp [List.countP_append, List.countP_cons, hpre_ing, hprestg,
            hpreupl, hpoll_ing, hpoll_stg, hpoll_upl, submitEvent,
            isIngestCall, isStagingCall, isUploadCall]

/-- Witness for C6: an ingest-configured operator on a stub whose
submitted job succeeds immediately; the four ingest events appear as a
contiguous block of the trace, in order, with the stub's signed url and
path. -/
theorem c6_ingest_wiring_witness :
    ingestBlock opIngest (stubHook none (fun _ => ⟨"j-new", "SUCCESS", none⟩))
        (fun _ => ()) <:+:
      [findEvent opIngest, Event.get_dataframe_info "fv" "prod",
        Event.invoke_df_generator (), Event.upload_df "signed-url-1" (),
        Event.ingest_dataframe "fv" "df-path-1" "prod",
        Event.get_job "prod" "fv" "j-new"] ∧
    ([findEvent opIngest, Event.get_dataframe_info "fv" "prod",
      Event.invoke_df_generator (), Event.upload_df "signed-url-1" (),
      Event.ingest_dataframe "fv" "df-path-1" "prod",
      Event.get_job "prod" "fv" "j-new"] : List (Event Unit)).countP
      isSubmitCall = 0 :=
  (c6_ingest_wiring opIngest
    (stubHook none (fun _ => ⟨"j-new", "SUCCESS", none⟩)) 3 _
    ExecResult.completed rfl).1 (fun _ => ()) rfl (by decide)

/-- C9: on the direct (no-producer) path, every submit call in the trace
carries the full constructor fields — workspace, feature view, online and
offline flags, start and end times — with `allow_overwrite` equal to the
operator's flag and `tecton_managed_retries` disabled; there is at most
one such call, and exactly one whenever the run is not skipped. -/
theorem c9_direct_submission (op : TectonJobOperator α) (h : HookOracle α)
    (fuel : Nat) (tr : List (Event α)) (r : ExecResult)
    (hdf : op.df_generator = none)
    (hx : execute op h fuel = some (tr, r)) :
    (∀ e ∈ tr, isSubmitCall e = true →
      e = Event.submit_job op.workspace op.feature_view op.online op.offline
        op.start_time op.end_time op.allow_overwrite false) ∧
    tr.countP isSubmitCall ≤ 1 ∧
    (r ≠ ExecResult.skipped → tr.countP isSubmitCall = 1) := by
  rcases execute_shape op h fuel tr r hx with
    ⟨job, -, -, -, rfl, rfl⟩ | ⟨pre, n, tl, rfl, hsp, hpresub, -, -, -⟩
  · refine ⟨?_, ?_, ?_⟩
    · intro e he hq
      rcases (by simpa using he : e = findEvent op ∨
          e = Event.log_existing job ∨ e = Event.log_exiting) with rfl | rfl | rfl <;>
        simp [isSubmitCall, findEvent] at hq
    · simp [List.countP_cons, findEvent, isSubmitCall]
    · intro hne
      exact absurd rfl hne
  · obtain ⟨hns, -, ptr, hmem, hcase⟩ := submitPoll_shape op h fuel n tl r hsp
    rcases hcase with ⟨g', hg', -⟩ | ⟨-, rfl⟩
    · rw [hdf] at hg'
      exact Option.noConfusion hg'
    · have hprez : pre.countP (isSubmitCall (α := α)) = 0 :=
        countP_zero_of_sub hpresub (fun e hq => by simp [isSubmissionCall, hq])
      have hptrz : ptr.countP (isSubmitCall (α := α)) = 0 := by
        rw [List.countP_eq_zero]
        intro e he hqe
        rcases hmem e he with rfl | rfl | ⟨k, st, u, rfl⟩ | rfl <;>
          simp [isSubmitCall] at hqe
      have hcount : (pre ++ submitEvent op ::
          Event.get_job op.workspace op.feature_view (newJobId op h) ::
          ptr).countP (isSubmitCall (α := α)) = 1 := by
        have e1 : isSubmitCall (α := α) (submitEvent op) = true := rfl
        have e2 : isSubmitCall (α := α)
            (Event.get_job op.workspace op.feature_view (newJobId op h)) = false := rfl
        simp [List.countP_append, List.countP_cons, hprez, hptrz, e1, e2]
      refine ⟨?_, ?_, fun _ => hcount⟩
      · intro e he hq
        simp only [List.mem_append, List.mem_cons] at he
        rcases he with he | rfl | rfl | he
        · exact absurd hq (by
            have := (List.countP_eq_zero.mp hprez) e he
            simpa using this)
        · rfl
        · simp [isSubmitCall] at hq
        · exact absurd hq (by
            have := (List.countP_eq_zero.mp hptrz) e he
            simpa using this)
      · rw [hcount]

/-- Witness for C9: a fresh direct submission that completes at once has
exactly one submit call in its trace. -/
theorem c9_direct_submission_witness :
    ([findEvent opBatch, submitEvent opBatch,
      Event.get_job "prod" "fv" "j-new"] : List (Event Unit)).countP
      isSubmitCall = 1 :=
  (c9_direct_submission opBatch
    (stubHook none (fun _ => ⟨"j-new", "SUCCESS", none⟩)) 3
    [findEvent opBatch, submitEvent opBatch, Event.get_job "prod" "fv" "j-new"]
    ExecResult.completed rfl rfl).2.2 (by decide)

/-- C7: the state tests the operator performs — `.lower().endswith(...)`
at the branch on the found job and `.upper().endswith(...)` in the poll
loop — agree, for every state string, with the case-insensitive
suffix-based classification of the spec; compound provider states such
as BACKFILL_RUNNING are classified running; and any state a jobFailed
outcome carries is classified neither running nor success. -/
theorem c7_state_classification (s : String) :
    (pyEndsWith (pyLower s) "running" = true ↔ ciEndsWith s "RUNNING" = true) ∧
    (pyEndsWith (pyUpper s) "RUNNING" = true ↔ ciEndsWith s "RUNNING" = true) ∧
    (pyEndsWith (pyLower s) "success" = true ↔ ciEndsWith s "SUCCESS" = true) ∧
    (pyEndsWith (pyUpper s) "SUCCESS" = true ↔ ciEndsWith s "SUCCESS" = true) ∧
    pyEndsWith (pyLower "BACKFILL_RUNNING") "running" = true ∧
    (∀ (op : TectonJobOperator α) (h : HookOracle α) (fuel : Nat)
      (tr : List (Event α)) (st : String) (rec : JobRec),
      execute op h fuel = some (tr, ExecResult.jobFailed st rec) →
      ciEndsWith st "RUNNING" = false ∧ ciEndsWith st "SUCCESS" = false) := by
  have hrl : ciEndsWith s "RUNNING" = pyEndsWith (pyLower s) "running" := by
    rw [ciEndsWith_eq_lower, show pyLower "RUNNING" = "running" from by decide]
  have hru : ciEndsWith s "RUNNING" = pyEndsWith (pyUpper s) "RUNNING" := by
    rw [ciEndsWith_eq_upper, show pyUpper "RUNNING" = "RUNNING" from by decide]
  have hsl : ciEndsWith s "SUCCESS" = pyEndsWith (pyLower s) "success" := by
    rw [ciEndsWith_eq_lower, show pyLower "SUCCESS" = "success" from by decide]
  have hsu : ciEndsWith s "SUCCESS" = pyEndsWith (pyUpper s) "SUCCESS" := by
    rw [ciEndsWith_eq_upper, show pyUpper "SUCCESS" = "SUCCESS" from by decide]
  refine ⟨by rw [hrl], by rw [hru], by rw [hsl], by rw [hsu], by decide, ?_⟩
  intro op h fuel tr st rec hx
  have hfail : st = rec.state ∧
      pyEndsWith (pyUpper rec.state) "RUNNING" = false ∧
      pyEndsWith (pyUpper rec.state) "SUCCESS" = false := by
    rcases execute_shape op h fuel tr _ hx with
      ⟨job, -, -, -, -, habs⟩ | ⟨pre, n, tl, -, hsp, -, -, -, -⟩
    · exact absurd habs (by simp)
    · obtain ⟨-, himp, -⟩ := submitPoll_shape op h fuel n tl _ hsp
      exact himp st rec rfl
  obtain ⟨rfl, hr, hs2⟩ := hfail
  constructor
  · rw [ciEndsWith_eq_upper, show pyUpper "RUNNING" = "RUNNING" from by decide]
    exact hr
  · rw [ciEndsWith_eq_upper, show pyUpper "SUCCESS" = "SUCCESS" from by decide]
    exact hs2

/-- Witness for C7: the compound provider state is classified running by
both the spec-side test and the code-side test. -/
theorem c7_state_classification_witness :
    ciEndsWith "BACKFILL_RUNNING" "RUNNING" = true :=
  (c7_state_classification (α := Unit) "BACKFILL_RUNNING").1.mp (by decide)

/-- C8: the failing input for the progress-logging claim.  A running
record whose `attempts` list is present but empty does not survive the
logging step: `attempts[-1]` raises `IndexError` (first conjunct), and a
whole run that polls such a record dies with that error after a single
fetch, instead of logging that no attempt has launched yet. -/
theorem c8_empty_attempts_crash :
    logTick Unit ⟨"j-new", "BATCH_RUNNING", some []⟩ = Except.error () ∧
    loggable ⟨"j-new", "BATCH_RUNNING", some []⟩ = false ∧
    pyEndsWith (pyUpper "BATCH_RUNNING") "RUNNING" = true ∧
    logTick Unit ⟨"j-new", "BATCH_RUNNING", none⟩ =
      Except.ok Event.log_no_attempt ∧
    execute opBatch
      (stubHook none (fun _ => ⟨"j-new", "BATCH_RUNNING", some []⟩)) 3 =
      some ([findEvent opBatch, submitEvent opBatch,
        Event.get_job "prod" "fv" "j-new"], ExecResult.indexError) :=
  ⟨rfl, rfl, by decide, rfl, rfl⟩

/-- Counterexample to C5 as stated: with a known job id, an error raised
by the client's cancel call propagates out of `on_kill` — the source
wraps the call in no try/except, so the hook does not catch it. -/
theorem c5_cancellation_hook_counterexample :
    on_kill (some "j1") (Except.error "boom") =
      ([KillEvent.log_attempting "j1", KillEvent.cancel_job "j1"],
        Except.error "boom") := rfl

/-- C5 (amended): invoking the hook before any job id is known performs
no remote call and does not raise; when a non-empty job id is known and
the cancel call errors, that error propagates out of the hook uncaught
(the log-success line is also skipped). -/
theorem c5_cancellation_hook (cr : Except String Unit) (jid e : String)
    (hjid : ¬jid = "") :
    on_kill none cr = ([KillEvent.log_no_job], Except.ok ()) ∧
    on_kill (some jid) (Except.error e) =
      ([KillEvent.log_attempting jid, KillEvent.cancel_job jid],
        Except.error e) := by
  exact ⟨rfl, by simp [on_kill, hjid]⟩

/-- Witness for C5 (amended) at concrete inputs. -/
theorem c5_cancellation_hook_witness :
    on_kill none (Except.ok ()) = ([KillEvent.log_no_job], Except.ok ()) ∧
    on_kill (some "j1") (Except.error "boom") =
      ([KillEvent.log_attempting "j1", KillEvent.cancel_job "j1"],
        Except.error "boom") :=
  c5_cancellation_hook (Except.ok ()) "j1" "boom" (by decide)

end AirflowTecton